import Mathlib

/-!
# Verification of the ATS company-discovery pipeline

A shallow embedding of the discovery-and-deduplication pipeline of the
`stapply-ai/data` repository (`src/firecrawl_discovery.py` and
`src/lever/serp.py`), together with proofs of the testable properties of
its specification.

Modelling conventions:

* Python strings are `String`; regular-expression matching is embedded for
  the specific shape of regex occurring in the source
  (a literal prefix, possibly with a literal alternation, followed by
  `[^/?#]+` segments separated by `/`), with Python `re.match` anchoring
  and greedy/backtracking semantics made explicit.
* Python sets of strings are `Finset String` (union, difference and
  cardinality are exactly the Python set operations used by the source).
* The external search provider is an oracle parameter: for each provider
  invocation it returns either an exception (`Except.error`) or a list of
  raw results.  A raw result is an `Option String`: `none` models a result
  object that is neither a dict nor carries a `url` attribute (skipped by
  the source), `some u` models a result whose url field is `u` (with
  `some ""` modelling `result.get("url", "")` on a dict without a url key).
* The CSV store is an abstract `Store`: absent file, unreadable/corrupt
  file (the `except` branch of the reader), or a readable table given as an
  association list from column names to columns of optional cells
  (`none` = NaN, removed by `dropna`).
* File writing (`DataFrame.to_csv`) is modelled by the list of rows it
  produces: the header followed by the URL rows; pandas' default mode
  (`"w"`) replaces the file, so the produced contents do not depend on the
  prior contents.
-/

namespace Discovery

/-! ## URL pattern matcher

The regexes in the source are
`(https://jobs\.ashbyhq\.com/[^/?#]+)`,
`(https://(?:job-boards|boards)\.greenhouse\.io/[^/?#]+)`,
`(https://jobs\.lever\.co/[^/?#]+)`,
`(https://apply\.workable\.com/[^/?#]+)` and
`(https://jobs\.workable\.com/company/[^/?#]+/[^/?#]+)`.
Every one of them is: an alternation of literal prefixes, followed by
`n ≥ 1` nonempty runs of characters outside `/?#`, separated by `/`, the
single capturing group being the whole match.  `matchSegs`, `tryPrefix`
and `reMatch` embed `re.match` (anchored at the start, group 1 returned)
for exactly this shape. -/

/-- The characters of the negated character class `[^/?#]`. -/
def stopChar (ch : Char) : Bool := ch = '/' || ch = '?' || ch = '#'

/-- Semantics of `[^/?#]+(/[^/?#]+)^(n-1)` matched at the start of `cs`:
each `[^/?#]+` is greedy, and since the class excludes `/` the greedy run
never needs to backtrack.  Returns the matched text. -/
def matchSegs : Nat → List Char → Option (List Char)
  | 0, _ => none
  | 1, cs =>
    let run := cs.takeWhile (fun ch => !stopChar ch)
    if run.isEmpty then none else some run
  | n+2, cs =>
    let run := cs.takeWhile (fun ch => !stopChar ch)
    if run.isEmpty then none
    else
      match cs.dropWhile (fun ch => !stopChar ch) with
      | '/' :: rest => (matchSegs (n+1) rest).map (fun t => run ++ '/' :: t)
      | _ => none

/-- One regex of the source: alternation of literal prefixes followed by
`nsegs` slash-separated `[^/?#]+` segments. -/
structure SegPattern where
  prefixes : List (List Char)
  nsegs : Nat
  deriving DecidableEq

/-- Match one literal alternative: the prefix must occur at the start
(`re.match` anchoring), then the segments follow. -/
def tryPrefix (n : Nat) (b cs : List Char) : Option (List Char) :=
  if b <+: cs then (matchSegs n (cs.drop b.length)).map (fun t => b ++ t) else none

/-- Embedding of `re.match(pat, url)` followed by `.group(1)`: alternatives are tried
left to right (regex backtracking over the alternation). -/
def reMatch (p : SegPattern) (cs : List Char) : Option (List Char) :=
  p.prefixes.findSome? (fun b => tryPrefix p.nsegs b cs)

/-! ## Platform registry (`PLATFORMS` in `firecrawl_discovery.py`) -/

structure PlatformConfig where
  domains : List String
  patterns : List SegPattern
  csv_column : String
  output_file : String
  deriving DecidableEq

/-- Platform `"ashby"`: pattern `(https://jobs\.ashbyhq\.com/[^/?#]+)`. -/
def ashbyConfig : PlatformConfig where
  domains := ["jobs.ashbyhq.com"]
  patterns := [⟨["https://jobs.ashbyhq.com/".toList], 1⟩]
  csv_column := "ashby_url"
  output_file := "ashby/companies.csv"

/-- Platform `"greenhouse"`: pattern
`(https://(?:job-boards|boards)\.greenhouse\.io/[^/?#]+)`; the alternation
becomes two literal prefixes tried in the regex's order. -/
def greenhouseConfig : PlatformConfig where
  domains := ["job-boards.greenhouse.io", "boards.greenhouse.io"]
  patterns := [⟨["https://job-boards.greenhouse.io/".toList,
                 "https://boards.greenhouse.io/".toList], 1⟩]
  csv_column := "greenhouse_url"
  output_file := "greenhouse/greenhouse_companies.csv"

/-- Platform `"lever"`: pattern `(https://jobs\.lever\.co/[^/?#]+)`. -/
def leverConfig : PlatformConfig where
  domains := ["jobs.lever.co"]
  patterns := [⟨["https://jobs.lever.co/".toList], 1⟩]
  csv_column := "lever_url"
  output_file := "lever/lever_companies.csv"

/-- Platform `"workable"`: two patterns, tried in order (first match wins):
`(https://apply\.workable\.com/[^/?#]+)` and
`(https://jobs\.workable\.com/company/[^/?#]+/[^/?#]+)`. -/
def workableConfig : PlatformConfig where
  domains := ["apply.workable.com", "jobs.workable.com"]
  patterns := [⟨["https://apply.workable.com/".toList], 1⟩,
               ⟨["https://jobs.workable.com/company/".toList], 2⟩]
  csv_column := "workable_url"
  output_file := "workable/workable_companies.csv"

/-- The `PLATFORMS` registry. -/
def PLATFORMS : List (String × PlatformConfig) :=
  [("ashby", ashbyConfig), ("greenhouse", greenhouseConfig),
   ("lever", leverConfig), ("workable", workableConfig)]

/-! ## Per-URL extraction (the body of the loop in
`extract_urls_from_results`, lines 120-134) -/

/-- The substring pre-filter
`any(domain in url for domain in domains)` (Python `in` on strings is
substring containment) followed by the pattern loop
`for pat in patterns: match = re.match(pat, url); if match: ... break`. -/
def extract (cfg : PlatformConfig) (url : String) : Option String :=
  if ∃ d ∈ cfg.domains, d.toList <:+: url.toList then
    (cfg.patterns.findSome? (fun p => reMatch p url.toList)).map String.mk
  else none

/-- Processing of one raw search result (`for result in results` body):
entries with no url field are skipped, empty urls are skipped, otherwise a
successful extraction is added to the accumulated set. -/
def processResult (cfg : PlatformConfig) (urls : Finset String) (r : Option String) :
    Finset String :=
  match r with
  | none => urls
  | some url =>
    if url = "" then urls
    else
      match extract cfg url with
      | some c => insert c urls
      | none => urls

/-- Embedding of `extract_urls_from_results(results, pattern, domains)`: fold the
per-result processing over the result list, starting from the empty set
(`urls = set()`); `if not results: return urls` is the `[]` case of the
fold. -/
def extract_urls_from_results (cfg : PlatformConfig) (results : List (Option String)) :
    Finset String :=
  results.foldl (processResult cfg) ∅

/-! ## Query strategy generator (`SEARCH_STRATEGIES`) -/

/-- The fixed, ordered list of 15 query strategies; each renders an
f-string of the domain. -/
def SEARCH_STRATEGIES : List (String → String) :=
  [fun domain => "site:" ++ domain,
   fun domain => "site:" ++ domain ++ " careers",
   fun domain => "site:" ++ domain ++ " jobs",
   fun domain => "site:" ++ domain ++ " hiring",
   fun domain => "site:" ++ domain ++ " software engineer",
   fun domain => "site:" ++ domain ++ " product manager",
   fun domain => "site:" ++ domain ++ " designer",
   fun domain => "site:" ++ domain ++ " remote",
   fun domain => "site:" ++ domain ++ " San Francisco",
   fun domain => "site:" ++ domain ++ " New York",
   fun domain => "site:" ++ domain ++ " London",
   fun domain => "site:" ++ domain ++ " Berlin",
   fun domain => "site:" ++ domain ++ " Singapore",
   fun domain => "site:" ++ domain ++ " startup",
   fun domain => "site:" ++ domain ++ " YC"]

/-! ## Discovery loop (`discover_platform`, lines 186-240)

The external provider is an oracle mapping the index of the provider
invocation (0-based count of `app.search` calls made so far) to either a
raised exception or the flat result list
(`search_result.web if hasattr(search_result, "web") and search_result.web
else []`, already normalised to raw results).  `invocations` and
`queries_issued` instrument the state with the number of provider calls
and the query strings sent, in order; the source's remaining state is
`all_urls`, `queries_used` and `total_credits_used`. -/

structure LoopState where
  all_urls : Finset String
  queries_used : Nat
  total_credits_used : Nat
  invocations : Nat
  queries_issued : List String

/-- The `for strategy_idx, strategy_func in enumerate(strategies_to_use, 1)`
loop body, iterated over the remaining strategies.  The `break` guard
(`if queries_used >= max_queries`), the `try`/`except Exception: continue`,
the post-success increments `queries_used += 1`,
`total_credits_used += credits_for_query` (with `credits_for_query = 2`)
and the session-set update `all_urls.update(query_urls)` are all modelled;
`extract_urls_from_results` of an empty result list is `∅`, which also
covers the `if not results: continue` shortcut.  `time.sleep(10)` has no
observable effect on the state. -/
def runQueries {ε : Type} (cfg : PlatformConfig)
    (provider : Nat → Except ε (List (Option String))) (max_queries : Nat) :
    List (String → String) → LoopState → LoopState
  | [], s => s
  | f :: rest, s =>
    if s.queries_used ≥ max_queries then s
    else
      let query := f (cfg.domains.headD "")
      let s1 : LoopState :=
        { s with invocations := s.invocations + 1,
                 queries_issued := s.queries_issued ++ [query] }
      match provider s.invocations with
      | .error _ => runQueries cfg provider max_queries rest s1
      | .ok results =>
        runQueries cfg provider max_queries rest
          { s1 with
            queries_used := s1.queries_used + 1,
            total_credits_used := s1.total_credits_used + 2,
            all_urls := s1.all_urls ∪ extract_urls_from_results cfg results }

/-- The discovery loop of `discover_platform`:
`strategies_to_use = SEARCH_STRATEGIES[:max_queries]`, initial state
`all_urls = set()`, `queries_used = 0`, `total_credits_used = 0`, each
query rendered against `config["domains"][0]`. -/
def discover_platform {ε : Type} (cfg : PlatformConfig)
    (provider : Nat → Except ε (List (Option String))) (max_queries : Nat) : LoopState :=
  runQueries cfg provider max_queries (SEARCH_STRATEGIES.take max_queries) ⟨∅, 0, 0, 0, []⟩

/-! ## Credit and cost accounting (lines 208-210 and 242-245) -/

/-- Embedding of `cost_per_credit = 16 / 10000` (Hobby plan: 16 dollars per 10000
credits), modelled exactly in `ℚ`. -/
def cost_per_credit : ℚ := 16 / 10000

/-- Embedding of `cost = total_credits_used * cost_per_credit`. -/
def run_cost (total_credits_used : Nat) : ℚ := total_credits_used * cost_per_credit

/-! ## Merge and persist (lines 254-266 of `firecrawl_discovery.py`,
lines 47-63 of `src/lever/serp.py`) -/

/-- Embedding of `combined_urls = existing_urls.union(all_urls)` and
`new_urls = all_urls - existing_urls`. -/
def merge (existing session : Finset String) : Finset String × Finset String :=
  (existing ∪ session, session \ existing)

/-- The rows written by
`pd.DataFrame({column: sorted(combined)}).to_csv(path, index=False)`:
header then the combined set in lexicographically sorted order. -/
def persist (column : String) (combined : Finset String) : List String :=
  column :: combined.sort (· ≤ ·)

/-- Because `DataFrame.to_csv` uses write mode (not append): the resulting file
contents are a function of the frame alone, with the prior contents
discarded. -/
def to_csv (_prior : List String) (column : String) (combined : Finset String) :
    List String :=
  persist column combined

/-- Embedding of `save_to_csv(urls, existing_urls, output_file)` of `src/lever/serp.py`:
`all_urls = existing_urls.union(urls)` then
`pd.DataFrame({"lever_url": sorted(all_urls)}).to_csv(...)`. -/
def save_to_csv (urls existing_urls : Finset String) : List String :=
  "lever_url" :: (existing_urls ∪ urls).sort (· ≤ ·)

/-! ## Existing-state loader (`read_existing_urls` in both scripts) -/

/-- The persisted store as the loader can encounter it: no file at the
path (`os.path.exists` false), a file on which `pd.read_csv` (or the
column accesses) raises (the `except Exception` branch), or a parsed
table given as an association list from column name to a column of
optional cells (`none` = NaN, dropped by `dropna`). -/
inductive Store where
  | absent : Store
  | unreadable : Store
  | table : List (String × List (Option String)) → Store

/-- The cell values of a column, with NaN entries dropped and the rest
collected into a set: `set(df[col].dropna().tolist())`. -/
def columnSet (cells : List (Option String)) : Finset String :=
  (cells.filterMap id).toFinset

/-- Embedding of `read_existing_urls(csv_file, column_name)` of
`firecrawl_discovery.py`: empty set when the file is absent or the read
raises; otherwise the named column if present, else the legacy `"url"`
column if present, else the empty set. -/
def read_existing_urls (store : Store) (column_name : String) : Finset String :=
  match store with
  | .absent => ∅
  | .unreadable => ∅
  | .table cols =>
    match cols.lookup column_name with
    | some cells => columnSet cells
    | none =>
      match cols.lookup "url" with
      | some cells => columnSet cells
      | none => ∅

/-- Embedding of `read_existing_urls(csv_file)` of `src/lever/serp.py`: identical
except that only the `"lever_url"` column is consulted — there is no
fallback column. -/
def serp_read_existing_urls (store : Store) : Finset String :=
  match store with
  | .absent => ∅
  | .unreadable => ∅
  | .table cols =>
    match cols.lookup "lever_url" with
    | some cells => columnSet cells
    | none => ∅

/-! ## The serp.py result loop (`fetch_urls`, lines 36-42)

`link = res.get("link")` is `none` when absent; then
`if link and "jobs.lever.co" in link:` followed by
`re.match(r"(https://jobs\.lever\.co/[^/?#]+)", link)` and
`all_urls.add(m.group(1))`. -/

def serp_processResult (urls : Finset String) (link : Option String) : Finset String :=
  match link with
  | none => urls
  | some l =>
    if l = "" then urls
    else
      if ("jobs.lever.co").toList <:+: l.toList then
        match reMatch ⟨["https://jobs.lever.co/".toList], 1⟩ l.toList with
        | some c => insert (String.mk c) urls
        | none => urls
      else urls

/-! ## Derived views of a configuration, used to state its properties -/

/-- The `(segment count, literal prefix)` alternatives of a
configuration, flattened in the order the source tries them
(outer loop over patterns, inner alternation within one regex). -/
def prefixPairs (cfg : PlatformConfig) : List (Nat × List Char) :=
  cfg.patterns.flatMap (fun p => p.prefixes.map (fun b => (p.nsegs, b)))

/-- Every literal prefix of every pattern contains one of the configured
domains as a substring (the spec's `PlatformConfig` invariant). -/
def domainsCoverPrefixes (cfg : PlatformConfig) : Prop :=
  ∀ pr ∈ prefixPairs cfg, ∃ d ∈ cfg.domains, d.toList <:+: pr.2

/-- Distinct literal prefixes of the configuration are
prefix-incomparable (none is a prefix of another). -/
def prefixesIncomparable (cfg : PlatformConfig) : Prop :=
  ∀ pr ∈ prefixPairs cfg, ∀ qr ∈ prefixPairs cfg, pr.2 ≠ qr.2 → ¬ pr.2 <+: qr.2

/-- A literal prefix occurs with only one segment count. -/
def prefixDeterminesSegs (cfg : PlatformConfig) : Prop :=
  ∀ pr ∈ prefixPairs cfg, ∀ qr ∈ prefixPairs cfg, pr.2 = qr.2 → pr.1 = qr.1

/-- The host of an `https://` URL: the characters after the 8-character
scheme prefix, up to the first `/`, `?` or `#`. -/
def hostChars (cs : List Char) : List Char :=
  (cs.drop 8).takeWhile (fun ch => !stopChar ch)

def hostOf (url : String) : List Char := hostChars url.toList

/-- Every literal prefix is an `https://` URL prefix whose host is one of
the configured domains, the authority being terminated inside the literal
itself. -/
def hostedPrefixes (cfg : PlatformConfig) : Prop :=
  ∀ pr ∈ prefixPairs cfg, 8 ≤ pr.2.length ∧
    hostChars pr.2 ∈ cfg.domains.map String.toList ∧
    ∃ ch ∈ pr.2.drop 8, stopChar ch = true

/-- The number of provider invocations among `start, …, start+len-1` that
return without raising (each of these is a "completed query" of the
source: `queries_used` is incremented and 2 credits are charged only
after `app.search` returns). -/
def successCount {ε : Type} (provider : Nat → Except ε (List (Option String))) :
    Nat → Nat → Nat
  | _, 0 => 0
  | start, len+1 =>
    (match provider start with
     | .ok _ => 1
     | .error _ => 0) + successCount provider (start+1) len

/-- The session set contributed by provider invocations `start, …,
start+len-1`: a non-raising invocation contributes the extraction of its
results, a raising one contributes nothing. -/
def sessionFrom {ε : Type} (cfg : PlatformConfig)
    (provider : Nat → Except ε (List (Option String))) :
    Nat → Nat → Finset String
  | _, 0 => ∅
  | start, len+1 =>
    (match provider start with
     | .ok results => extract_urls_from_results cfg results
     | .error _ => ∅) ∪ sessionFrom cfg provider (start+1) len

instance (cfg : PlatformConfig) : Decidable (domainsCoverPrefixes cfg) :=
  inferInstanceAs (Decidable (∀ pr ∈ prefixPairs cfg, ∃ d ∈ cfg.domains, d.toList <:+: pr.2))

instance (cfg : PlatformConfig) : Decidable (prefixesIncomparable cfg) :=
  inferInstanceAs (Decidable
    (∀ pr ∈ prefixPairs cfg, ∀ qr ∈ prefixPairs cfg, pr.2 ≠ qr.2 → ¬ pr.2 <+: qr.2))

instance (cfg : PlatformConfig) : Decidable (prefixDeterminesSegs cfg) :=
  inferInstanceAs (Decidable
    (∀ pr ∈ prefixPairs cfg, ∀ qr ∈ prefixPairs cfg, pr.2 = qr.2 → pr.1 = qr.1))

instance (cfg : PlatformConfig) : Decidable (hostedPrefixes cfg) :=
  inferInstanceAs (Decidable (∀ pr ∈ prefixPairs cfg, 8 ≤ pr.2.length ∧
    hostChars pr.2 ∈ cfg.domains.map String.toList ∧
    ∃ ch ∈ pr.2.drop 8, stopChar ch = true))

/-! ## Lemmas about the embedded regex matcher -/

/-- The shape of a text matched by `[^/?#]+(/[^/?#]+)^(n-1)`: `n ≥ 1`
nonempty runs of non-stop characters, joined by `/`. -/
inductive SegShape : Nat → List Char → Prop
  | one (r : List Char) (hne : r ≠ []) (hr : ∀ ch ∈ r, stopChar ch = false) :
      SegShape 1 r
  | more (r t : List Char) (n : Nat) (hne : r ≠ [])
      (hr : ∀ ch ∈ r, stopChar ch = false) (ht : SegShape (n+1) t) :
      SegShape (n+2) (r ++ '/' :: t)

theorem takeWhile_append_stop (p : Char → Bool) (r rest : List Char) (b : Char)
    (hr : ∀ a ∈ r, p a = true) (hb : p b = false) :
    (r ++ b :: rest).takeWhile p = r := by
  induction r with
  | nil => simp [List.takeWhile, hb]
  | cons a r ih =>
    have ha : p a = true := hr a (by simp)
    simp only [List.cons_append, List.takeWhile_cons, ha, if_true]
    rw [ih (fun a h => hr a (by simp [h]))]

theorem dropWhile_append_stop (p : Char → Bool) (r rest : List Char) (b : Char)
    (hr : ∀ a ∈ r, p a = true) (hb : p b = false) :
    (r ++ b :: rest).dropWhile p = b :: rest := by
  induction r with
  | nil => simp [List.dropWhile, hb]
  | cons a r ih =>
    have ha : p a = true := hr a (by simp)
    simp only [List.cons_append, List.dropWhile_cons, ha, if_true]
    exact ih (fun a h => hr a (by simp [h]))

/-- A match returned by `matchSegs` has the segment shape and is a prefix
of the input (the matcher consumes a prefix of the string). -/
theorem matchSegs_sound :
    ∀ (n : Nat) (cs t : List Char), matchSegs n cs = some t →
      SegShape n t ∧ t <+: cs := by
  intro n
  induction n using Nat.strong_induction_on with
  | _ n ih =>
    intro cs t h
    match n with
    | 0 => simp [matchSegs] at h
    | 1 =>
      simp only [matchSegs] at h
      by_cases hrun : (cs.takeWhile (fun ch => !stopChar ch)).isEmpty = true
      · rw [if_pos hrun] at h; exact absurd h (by simp)
      · rw [if_neg hrun] at h
        injection h with h
        subst h
        refine ⟨SegShape.one _ ?_ ?_, List.takeWhile_prefix _⟩
        · intro hnil
          rw [hnil] at hrun; exact hrun rfl
        · intro ch hch
          have := List.mem_takeWhile_imp hch
          simpa using this
    | m+2 =>
      simp only [matchSegs] at h
      by_cases hrun : (cs.takeWhile (fun ch => !stopChar ch)).isEmpty = true
      · rw [if_pos hrun] at h; exact absurd h (by simp)
      · rw [if_neg hrun] at h
        split at h
        case _ rest hd =>
          rw [Option.map_eq_some'] at h
          obtain ⟨t', ht', rfl⟩ := h
          obtain ⟨hshape, hpre⟩ := ih (m+1) (by omega) rest t' ht'
          constructor
          · refine SegShape.more _ _ _ ?_ ?_ hshape
            · intro hnil; rw [hnil] at hrun; exact hrun rfl
            · intro ch hch
              have := List.mem_takeWhile_imp hch
              simpa using this
          · obtain ⟨u, hu⟩ := hpre
            have hsplit : cs.takeWhile (fun ch => !stopChar ch) ++
                '/' :: rest = cs := by
              rw [← hd]; exact List.takeWhile_append_dropWhile _ cs
            refine ⟨u, ?_⟩
            calc (cs.takeWhile (fun ch => !stopChar ch) ++ '/' :: t') ++ u
                = cs.takeWhile (fun ch => !stopChar ch) ++ '/' :: (t' ++ u) := by
                  simp
              _ = cs.takeWhile (fun ch => !stopChar ch) ++ '/' :: rest := by
                  rw [hu]
              _ = cs := hsplit
        case _ => exact absurd h (by simp)

/-- A text of segment shape matches itself: re-running the matcher on an
extracted match consumes it entirely and returns it unchanged. -/
theorem matchSegs_self :
    ∀ (n : Nat) (t : List Char), SegShape n t → matchSegs n t = some t := by
  intro n t h
  induction h with
  | one r hne hr =>
    have htake : r.takeWhile (fun ch => !stopChar ch) = r :=
      List.takeWhile_eq_self_iff.mpr (by intro a ha; simp [hr a ha])
    have : r.isEmpty = false := by
      cases r with
      | nil => exact absurd rfl hne
      | cons a l => rfl
    simp [matchSegs, htake, this]
  | more r t n hne hr ht ih =>
    have hstop : stopChar '/' = true := rfl
    have htake : (r ++ '/' :: t).takeWhile (fun ch => !stopChar ch) = r :=
      takeWhile_append_stop _ _ _ _ (fun a ha => by simp [hr a ha]) (by simp [hstop])
    have hdrop : (r ++ '/' :: t).dropWhile (fun ch => !stopChar ch) = '/' :: t :=
      dropWhile_append_stop _ _ _ _ (fun a ha => by simp [hr a ha]) (by simp [hstop])
    have hre : r.isEmpty = false := by
      cases r with
      | nil => exact absurd rfl hne
      | cons a l => rfl
    simp [matchSegs, htake, hdrop, hre, ih]

/-- Soundness of one literal alternative: a success is the literal prefix
followed by a text of segment shape, and is a prefix of the input. -/
theorem tryPrefix_sound (n : Nat) (b cs c : List Char)
    (h : tryPrefix n b cs = some c) :
    ∃ t, c = b ++ t ∧ SegShape n t ∧ c <+: cs := by
  unfold tryPrefix at h
  by_cases hb : b <+: cs
  · rw [if_pos hb, Option.map_eq_some'] at h
    obtain ⟨t, ht, rfl⟩ := h
    obtain ⟨hshape, hpre⟩ := matchSegs_sound n _ t ht
    refine ⟨t, rfl, hshape, ?_⟩
    obtain ⟨u, rfl⟩ := hb
    rw [List.drop_left] at hpre
    obtain ⟨v, rfl⟩ := hpre
    exact ⟨v, by simp⟩
  · simp [hb] at h

/-- Self-matching of one literal alternative. -/
theorem tryPrefix_self (n : Nat) (b t : List Char) (ht : SegShape n t) :
    tryPrefix n b (b ++ t) = some (b ++ t) := by
  unfold tryPrefix
  rw [if_pos (List.prefix_append b t), List.drop_left, matchSegs_self n t ht]
  rfl

/-- An alternative whose literal is prefix-incomparable with `b` fails on
any string of the form `b ++ t`. -/
theorem tryPrefix_fail (n : Nat) (a b t : List Char)
    (hab : ¬ a <+: b) (hba : ¬ b <+: a) : tryPrefix n a (b ++ t) = none := by
  unfold tryPrefix
  rw [if_neg]
  intro h
  rcases Nat.le_total a.length b.length with hle | hle
  · exact hab (List.prefix_of_prefix_length_le h (List.prefix_append b t) hle)
  · exact hba (List.prefix_of_prefix_length_le (List.prefix_append b t) h hle)

/-! ## Lemmas about `extract` -/

theorem mk_toList (s : String) : String.mk s.toList = s := rfl

/-- The nested first-match search (outer: patterns in order; inner:
alternatives in order) equals the search over the flattened alternative
list. -/
theorem findSome?_patterns (pats : List SegPattern) (cs : List Char) :
    pats.findSome? (fun p => reMatch p cs) =
      (pats.flatMap (fun p => p.prefixes.map (fun b => (p.nsegs, b)))).findSome?
        (fun pr => tryPrefix pr.1 pr.2 cs) := by
  induction pats with
  | nil => rfl
  | cons p ps ih =>
    have hmap : (p.prefixes.map (fun b => (p.nsegs, b))).findSome?
        (fun pr => tryPrefix pr.1 pr.2 cs) = reMatch p cs := by
      rw [List.findSome?_map]
      rfl
    rw [List.flatMap_cons, List.findSome?_append, hmap]
    cases hm : reMatch p cs with
    | none => simp only [List.findSome?_cons, hm, ih, Option.none_or]
    | some c => simp only [List.findSome?_cons, hm, Option.or]

/-- If some element of the list succeeds with `c` and every element
either fails or succeeds with the same `c`, the first-match search
returns `c`. -/
theorem findSome?_eq_of_all {α β : Type} {f : α → Option β} {c : β} :
    ∀ {l : List α}, (∃ a ∈ l, f a = some c) →
      (∀ a ∈ l, f a = none ∨ f a = some c) → l.findSome? f = some c := by
  intro l
  induction l with
  | nil => intro hex _; simp at hex
  | cons a l ih =>
    intro hex hall
    rcases hall a (by simp) with ha | ha
    · simp only [List.findSome?_cons, ha]
      apply ih
      · rcases hex with ⟨x, hx, hfx⟩
        rcases List.mem_cons.mp hx with rfl | hx
        · rw [ha] at hfx; cases hfx
        · exact ⟨x, hx, hfx⟩
      · intro x hx; exact hall x (by simp [hx])
    · simp only [List.findSome?_cons, ha]

/-- Structure of a successful extraction: the domain filter passed, and
the canonical URL is one of the configuration's literal prefixes followed
by a segment-shaped tail; moreover it is a prefix of the raw URL. -/
theorem extract_some (cfg : PlatformConfig) (u c : String)
    (h : extract cfg u = some c) :
    (∃ d ∈ cfg.domains, d.toList <:+: u.toList) ∧
      ∃ pr ∈ prefixPairs cfg, ∃ t, c.toList = pr.2 ++ t ∧ SegShape pr.1 t ∧
        c.toList <+: u.toList := by
  unfold extract at h
  by_cases hdom : ∃ d ∈ cfg.domains, d.toList <:+: u.toList
  · rw [if_pos hdom, findSome?_patterns, Option.map_eq_some'] at h
    obtain ⟨cs, hcs, rfl⟩ := h
    obtain ⟨pr, hpr, hf⟩ := List.exists_of_findSome?_eq_some hcs
    obtain ⟨t, hcl, hshape, hpre⟩ := tryPrefix_sound pr.1 pr.2 u.toList cs hf
    exact ⟨hdom, pr, hpr, t, hcl, hshape, hpre⟩
  · rw [if_neg hdom] at h
    cases h

/-- Generic canonicalization stability: under the three (decidable, per
configuration) side conditions, an extracted canonical URL re-extracts to
itself. -/
theorem extract_fixed_of (cfg : PlatformConfig)
    (hA : domainsCoverPrefixes cfg) (hB : prefixesIncomparable cfg)
    (hC : prefixDeterminesSegs cfg) (u c : String)
    (h : extract cfg u = some c) : extract cfg c = some c := by
  obtain ⟨-, pr, hpr, t, hct, hshape, -⟩ := extract_some cfg u c h
  have hdom : ∃ d ∈ cfg.domains, d.toList <:+: c.toList := by
    obtain ⟨d, hd, hinf⟩ := hA pr hpr
    refine ⟨d, hd, hinf.trans ?_⟩
    rw [hct]
    exact (List.prefix_append pr.2 t).isInfix
  have hfind : (prefixPairs cfg).findSome?
      (fun qr => tryPrefix qr.1 qr.2 c.toList) = some c.toList := by
    apply findSome?_eq_of_all
    · refine ⟨pr, hpr, ?_⟩
      rw [hct]
      exact tryPrefix_self pr.1 pr.2 t hshape
    · intro qr hqr
      by_cases hqp : qr.2 = pr.2
      · right
        have hn : qr.1 = pr.1 := hC qr hqr pr hpr hqp
        rw [hn, hqp, hct]
        exact tryPrefix_self pr.1 pr.2 t hshape
      · left
        rw [hct]
        exact tryPrefix_fail qr.1 qr.2 pr.2 t
          (hB qr hqr pr hpr hqp) (hB pr hpr qr hqr (fun hh => hqp hh.symm))
  unfold extract
  rw [if_pos hdom, findSome?_patterns]
  have : (prefixPairs cfg).findSome? (fun qr => tryPrefix qr.1 qr.2 c.toList) =
      (cfg.patterns.flatMap (fun p => p.prefixes.map (fun b => (p.nsegs, b)))).findSome?
        (fun qr => tryPrefix qr.1 qr.2 c.toList) := rfl
  rw [← this, hfind]
  simp [mk_toList]

theorem takeWhile_stop_append (p : Char → Bool) :
    ∀ (xs t : List Char), (∃ ch ∈ xs, p ch = false) →
      (xs ++ t).takeWhile p = xs.takeWhile p := by
  intro xs
  induction xs with
  | nil => intro t h; simp at h
  | cons x xs ih =>
    intro t h
    cases hx : p x with
    | false => simp [List.takeWhile_cons, hx]
    | true =>
      simp only [List.cons_append, List.takeWhile_cons, hx, if_true]
      rw [ih t ?_]
      obtain ⟨ch, hch, hpch⟩ := h
      rcases List.mem_cons.mp hch with rfl | hch
      · rw [hx] at hpch; cases hpch
      · exact ⟨ch, hch, hpch⟩

/-- The host of a URL starting with a literal whose authority is
terminated inside the literal is the host of the literal. -/
theorem hostChars_append (b t : List Char) (h8 : 8 ≤ b.length)
    (hstop : ∃ ch ∈ b.drop 8, stopChar ch = true) :
    hostChars (b ++ t) = hostChars b := by
  unfold hostChars
  rw [List.drop_append_of_le_length h8]
  apply takeWhile_stop_append
  obtain ⟨ch, hch, hpch⟩ := hstop
  exact ⟨ch, hch, by simp [hpch]⟩

/-- A successful extraction forces the raw URL's host to be one of the
configured domains. -/
theorem extract_host_of (cfg : PlatformConfig) (hH : hostedPrefixes cfg)
    (url c : String) (h : extract cfg url = some c) :
    hostOf url ∈ cfg.domains.map String.toList := by
  obtain ⟨-, pr, hpr, t, hct, -, hpre⟩ := extract_some cfg url c h
  obtain ⟨h8, hdom, hstop⟩ := hH pr hpr
  have hpru : pr.2 <+: url.toList := by
    refine (List.prefix_append pr.2 t).trans ?_
    rw [← hct]
    exact hpre
  obtain ⟨t', ht'⟩ := hpru
  unfold hostOf
  rw [← ht', hostChars_append pr.2 t' h8 hstop]
  exact hdom

/-- The per-result processing of `serp.py`'s `fetch_urls` coincides with
the per-result processing of `extract_urls_from_results` instantiated at
the lever configuration (the two scripts are near-duplicates). -/
theorem serp_processResult_eq (urls : Finset String) (r : Option String) :
    serp_processResult urls r = processResult leverConfig urls r := by
  cases r with
  | none => rfl
  | some l =>
    simp only [serp_processResult, processResult, extract]
    by_cases h0 : l = ""
    · rw [if_pos h0, if_pos h0]
    · rw [if_neg h0, if_neg h0]
      by_cases hd : ("jobs.lever.co").toList <:+: l.toList
      · rw [if_pos hd, if_pos (show ∃ d ∈ leverConfig.domains,
            d.toList <:+: l.toList from ⟨"jobs.lever.co", by simp [leverConfig], hd⟩)]
        show _ = (match (List.findSome?
            (fun p => reMatch p l.toList) leverConfig.patterns).map String.mk with
          | some c => insert c urls
          | none => urls)
        have hsingle : List.findSome? (fun p => reMatch p l.toList) leverConfig.patterns =
            reMatch ⟨["https://jobs.lever.co/".toList], 1⟩ l.toList := by
          simp only [leverConfig, List.findSome?_cons, List.findSome?_nil]
          cases reMatch ⟨["https://jobs.lever.co/".toList], 1⟩ l.toList <;> rfl
        rw [hsingle]
        cases reMatch ⟨["https://jobs.lever.co/".toList], 1⟩ l.toList <;> rfl
      · rw [if_neg hd, if_neg (show ¬ ∃ d ∈ leverConfig.domains,
            d.toList <:+: l.toList by
          rintro ⟨d, hdm, hinf⟩
          simp only [leverConfig, List.mem_singleton] at hdm
          subst hdm
          exact hd hinf)]

/-- Every canonical URL accumulated by the extraction fold comes from the
accumulator or from a successful extraction of one of the raw results. -/
theorem mem_foldl_processResult (cfg : PlatformConfig) :
    ∀ (results : List (Option String)) (acc : Finset String) (c : String),
      c ∈ results.foldl (processResult cfg) acc →
      c ∈ acc ∨ ∃ u : String, some u ∈ results ∧ extract cfg u = some c := by
  intro results
  induction results with
  | nil => intro acc c h; exact Or.inl h
  | cons r rs ih =>
    intro acc c h
    rw [List.foldl_cons] at h
    rcases ih (processResult cfg acc r) c h with hacc | ⟨u, hu, hex⟩
    · cases r with
      | none => exact Or.inl hacc
      | some url =>
        simp only [processResult] at hacc
        by_cases h0 : url = ""
        · rw [if_pos h0] at hacc; exact Or.inl hacc
        · rw [if_neg h0] at hacc
          cases hx : extract cfg url with
          | none => rw [hx] at hacc; exact Or.inl hacc
          | some c' =>
            rw [hx] at hacc
            rcases Finset.mem_insert.mp hacc with rfl | hmem
            · exact Or.inr ⟨url, by simp, hx⟩
            · exact Or.inl hmem
    · exact Or.inr ⟨u, by simp [hu], hex⟩

/-! ## Lemmas about the discovery loop -/

/-- Full characterisation of the loop, under the invariant that the
remaining strategy list fits in the remaining query budget (which holds on
entry because `strategies_to_use` is truncated to `max_queries`): the
`break` guard never fires, every remaining strategy causes exactly one
provider invocation with its query string, and the session set, the
credit counter and `queries_used` accumulate over the non-raising
invocations. -/
theorem runQueries_spec {ε : Type} (cfg : PlatformConfig)
    (provider : Nat → Except ε (List (Option String))) (mq : Nat) :
    ∀ (l : List (String → String)) (s : LoopState),
      s.queries_used + l.length ≤ mq →
      (runQueries cfg provider mq l s).invocations = s.invocations + l.length ∧
      (runQueries cfg provider mq l s).queries_issued =
        s.queries_issued ++ l.map (fun f => f (cfg.domains.headD "")) ∧
      (runQueries cfg provider mq l s).all_urls =
        s.all_urls ∪ sessionFrom cfg provider s.invocations l.length ∧
      (runQueries cfg provider mq l s).total_credits_used =
        s.total_credits_used + 2 * successCount provider s.invocations l.length ∧
      (runQueries cfg provider mq l s).queries_used =
        s.queries_used + successCount provider s.invocations l.length := by
  intro l
  induction l with
  | nil =>
    intro s h
    simp [runQueries, sessionFrom, successCount]
  | cons f rest ih =>
    intro s h
    have hlt : ¬ s.queries_used ≥ mq := by
      simp only [List.length_cons] at h
      omega
    have hrest : s.queries_used + rest.length ≤ mq := by
      simp only [List.length_cons] at h
      omega
    cases hp : provider s.invocations with
    | error e =>
      obtain ⟨h1, h2, h3, h4, h5⟩ := ih
        { s with invocations := s.invocations + 1,
                 queries_issued := s.queries_issued ++ [f (cfg.domains.headD "")] }
        hrest
      simp only [runQueries, hp]
      rw [if_neg hlt]
      refine ⟨?_, ?_, ?_, ?_, ?_⟩
      · rw [h1]; simp only [List.length_cons]; omega
      · rw [h2]; simp
      · rw [h3]
        simp only [List.length_cons, sessionFrom, hp]
        rw [Finset.empty_union]
      · rw [h4]
        simp only [List.length_cons, successCount, hp]
        omega
      · rw [h5]
        simp only [List.length_cons, successCount, hp]
        omega
    | ok results =>
      obtain ⟨h1, h2, h3, h4, h5⟩ := ih
        { s with invocations := s.invocations + 1,
                 queries_issued := s.queries_issued ++ [f (cfg.domains.headD "")],
                 queries_used := s.queries_used + 1,
                 total_credits_used := s.total_credits_used + 2,
                 all_urls := s.all_urls ∪ extract_urls_from_results cfg results }
        (by
          show s.queries_used + 1 + rest.length ≤ mq
          simp only [List.length_cons] at h
          omega)
      simp only [runQueries, hp]
      rw [if_neg hlt]
      refine ⟨?_, ?_, ?_, ?_, ?_⟩
      · rw [h1]; simp only [List.length_cons]; omega
      · rw [h2]; simp
      · rw [h3]
        simp only [List.length_cons, sessionFrom, hp]
        rw [Finset.union_assoc]
      · rw [h4]
        simp only [List.length_cons, successCount, hp]
        omega
      · rw [h5]
        simp only [List.length_cons, successCount, hp]
        omega

/-- The loop characterisation instantiated at the entry state of
`discover_platform`. -/
theorem discover_platform_spec {ε : Type} (cfg : PlatformConfig)
    (provider : Nat → Except ε (List (Option String))) (mq : Nat) :
    (discover_platform cfg provider mq).invocations = min mq 15 ∧
    (discover_platform cfg provider mq).queries_issued =
      (SEARCH_STRATEGIES.map (fun f => f (cfg.domains.headD ""))).take mq ∧
    (discover_platform cfg provider mq).all_urls =
      sessionFrom cfg provider 0 (min mq 15) ∧
    (discover_platform cfg provider mq).total_credits_used =
      2 * successCount provider 0 (min mq 15) ∧
    (discover_platform cfg provider mq).queries_used =
      successCount provider 0 (min mq 15) := by
  have h15 : SEARCH_STRATEGIES.length = 15 := rfl
  have hlen : (SEARCH_STRATEGIES.take mq).length = min mq 15 := by
    rw [List.length_take, h15]
  obtain ⟨h1, h2, h3, h4, h5⟩ := runQueries_spec cfg provider mq
    (SEARCH_STRATEGIES.take mq) ⟨∅, 0, 0, 0, []⟩
    (by
      show 0 + (SEARCH_STRATEGIES.take mq).length ≤ mq
      rw [hlen]
      omega)
  unfold discover_platform
  rw [hlen] at h1 h3 h4 h5
  refine ⟨?_, ?_, ?_, ?_, ?_⟩
  · rw [h1]; simp
  · rw [h2, List.map_take]; rfl
  · rw [h3]; exact Finset.empty_union _
  · rw [h4]; simp
  · rw [h5]; simp

/-- Two providers whose per-invocation session contributions agree
produce the same session set. -/
theorem sessionFrom_congr {ε ε' : Type} (cfg : PlatformConfig)
    (p1 : Nat → Except ε (List (Option String)))
    (p2 : Nat → Except ε' (List (Option String)))
    (hagree : ∀ i,
      (match p1 i with
       | .ok results => extract_urls_from_results cfg results
       | .error _ => ∅) =
      (match p2 i with
       | .ok results => extract_urls_from_results cfg results
       | .error _ => ∅)) :
    ∀ (len start : Nat), sessionFrom cfg p1 start len = sessionFrom cfg p2 start len := by
  intro len
  induction len with
  | zero => intro start; rfl
  | succ n ih =>
    intro start
    simp only [sessionFrom]
    rw [hagree start, ih (start+1)]

/-! ## The claims -/

/-- Claim C1: for every existing set `E` and session set `S` of canonical
URLs, the merge step computes `combined = E ∪ S` (set union under string
equality) and `newOnly = S − E` (set difference); `newOnly` feeds only the
report while `persist` receives `combined`, so the persisted rows contain
every URL of `E` and `|combined|` never decreases relative to `|E|`.  The
same holds for `save_to_csv` of `serp.py`. -/
theorem merge_preserves_existing (E S : Finset String) (col : String) :
    merge E S = (E ∪ S, S \ E) ∧
    E ⊆ (merge E S).1 ∧
    E.card ≤ (merge E S).1.card ∧
    (∀ u ∈ E, u ∈ persist col (merge E S).1) ∧
    (∀ u ∈ E, u ∈ save_to_csv S E) := by
  refine ⟨rfl, Finset.subset_union_left,
    Finset.card_le_card Finset.subset_union_left, ?_, ?_⟩
  · intro u hu
    unfold persist
    exact List.mem_cons_of_mem _
      ((Finset.mem_sort _).mpr (Finset.mem_union_left _ hu))
  · intro u hu
    unfold save_to_csv
    exact List.mem_cons_of_mem _
      ((Finset.mem_sort _).mpr (Finset.mem_union_left _ hu))

theorem merge_preserves_existing_witness :
    "https://jobs.lever.co/acme" ∈ persist "lever_url"
        (merge {"https://jobs.lever.co/acme"} {"https://jobs.lever.co/beta"}).1 ∧
    "https://jobs.lever.co/acme" ∈
        save_to_csv {"https://jobs.lever.co/beta"} {"https://jobs.lever.co/acme"} :=
  ⟨(merge_preserves_existing {"https://jobs.lever.co/acme"}
      {"https://jobs.lever.co/beta"} "lever_url").2.2.2.1 _ (by decide),
   (merge_preserves_existing {"https://jobs.lever.co/acme"}
      {"https://jobs.lever.co/beta"} "lever_url").2.2.2.2 _ (by decide)⟩

/-- Claim C2: for every platform run with maximum query count `mq`, the
discovery loop invokes the external search provider at most
`min mq (SEARCH_STRATEGIES.length)` times, with
`SEARCH_STRATEGIES.length = 15` (in fact exactly that many times), and
the queries it issues are the prefix of the fixed strategy sequence, in
order. -/
theorem budget_bound {ε : Type} (cfg : PlatformConfig)
    (provider : Nat → Except ε (List (Option String))) (mq : Nat) :
    SEARCH_STRATEGIES.length = 15 ∧
    (discover_platform cfg provider mq).invocations ≤
      min mq SEARCH_STRATEGIES.length ∧
    (discover_platform cfg provider mq).invocations = min mq 15 ∧
    (discover_platform cfg provider mq).queries_issued =
      (SEARCH_STRATEGIES.map (fun f => f (cfg.domains.headD ""))).take mq := by
  obtain ⟨h1, h2, -, -, -⟩ := discover_platform_spec cfg provider mq
  exact ⟨rfl, by rw [h1]; exact Nat.le_refl _, h1, h2⟩

/-- Claim C3: persist writes the combined set in lexicographically sorted
order and its output is a function of the new frame alone (full
overwrite); consequently a second pipeline run with no new external
results (session contained in the stored set, in particular the empty
session) writes byte-identical rows in the same order. -/
theorem persist_sorted_idempotent (col : String) (E S Ssub : Finset String) :
    List.Sorted (· ≤ ·) ((merge E S).1.sort (· ≤ ·)) ∧
    (∀ prior prior' : List String,
      to_csv prior col (merge E S).1 = to_csv prior' col (merge E S).1) ∧
    persist col (merge (merge E S).1 ∅).1 = persist col (merge E S).1 ∧
    (Ssub ⊆ E ∪ S →
      persist col (merge (merge E S).1 Ssub).1 = persist col (merge E S).1) := by
  refine ⟨Finset.sort_sorted _ _, fun _ _ => rfl, ?_, ?_⟩
  · show persist col ((E ∪ S) ∪ ∅) = persist col (E ∪ S)
    rw [Finset.union_empty]
  · intro hsub
    show persist col ((E ∪ S) ∪ Ssub) = persist col (E ∪ S)
    rw [Finset.union_eq_left.mpr hsub]

theorem persist_sorted_idempotent_witness :
    persist "lever_url"
        (merge (merge {"https://jobs.lever.co/acme"} {"https://jobs.lever.co/beta"}).1
          {"https://jobs.lever.co/acme"}).1 =
      persist "lever_url"
        (merge {"https://jobs.lever.co/acme"} {"https://jobs.lever.co/beta"}).1 :=
  (persist_sorted_idempotent "lever_url" {"https://jobs.lever.co/acme"}
    {"https://jobs.lever.co/beta"} {"https://jobs.lever.co/acme"}).2.2.2 (by decide)

/-- Claim C4: extraction is a fixed point: for every raw URL `u` that some
pattern of a registry platform matches with canonical result `c`, feeding
`c` back through the extractor with the same patterns and domains returns
`c` again, for all four platform configurations. -/
theorem extraction_fixed_point :
    ∀ pc ∈ PLATFORMS, ∀ u c : String,
      extract pc.2 u = some c → extract pc.2 c = some c := by
  intro pc hpc u c h
  have h4 : pc = ("ashby", ashbyConfig) ∨ pc = ("greenhouse", greenhouseConfig) ∨
      pc = ("lever", leverConfig) ∨ pc = ("workable", workableConfig) := by
    simpa [PLATFORMS] using hpc
  rcases h4 with rfl | rfl | rfl | rfl <;>
    exact extract_fixed_of _ (by decide) (by decide) (by decide) u c h

theorem extraction_fixed_point_witness :
    extract leverConfig "https://jobs.lever.co/acme/job/123" =
        some "https://jobs.lever.co/acme" ∧
      extract leverConfig "https://jobs.lever.co/acme" =
        some "https://jobs.lever.co/acme" :=
  ⟨by decide, extraction_fixed_point ("lever", leverConfig) (by decide)
    "https://jobs.lever.co/acme/job/123" "https://jobs.lever.co/acme" (by decide)⟩

/-- Claim C5: for every raw result URL whose host is not in the configured
domain list, extraction returns `none`, for all platforms of the
registry; in particular the substring pre-filter rejects URLs containing
no configured domain (patterns are attempted anchored at the start, first
match wins, as embedded in `extract`).  The serp.py result loop likewise
adds nothing for such a URL. -/
theorem foreign_host_rejected :
    ∀ pc ∈ PLATFORMS, ∀ url : String,
      (hostOf url ∉ pc.2.domains.map String.toList → extract pc.2 url = none) ∧
      ((¬ ∃ d ∈ pc.2.domains, d.toList <:+: url.toList) →
        extract pc.2 url = none) ∧
      (∀ urls : Finset String, hostOf url ∉ leverConfig.domains.map String.toList →
        serp_processResult urls (some url) = urls) := by
  intro pc hpc url
  have hH : hostedPrefixes pc.2 := by
    have h4 : pc = ("ashby", ashbyConfig) ∨ pc = ("greenhouse", greenhouseConfig) ∨
        pc = ("lever", leverConfig) ∨ pc = ("workable", workableConfig) := by
      simpa [PLATFORMS] using hpc
    rcases h4 with rfl | rfl | rfl | rfl <;> decide
  refine ⟨?_, ?_, ?_⟩
  · intro hno
    cases hx : extract pc.2 url with
    | none => rfl
    | some c => exact absurd (extract_host_of pc.2 hH url c hx) hno
  · intro hno
    unfold extract
    rw [if_neg hno]
  · intro urls hno
    rw [serp_processResult_eq]
    have hnone : extract leverConfig url = none := by
      cases hx : extract leverConfig url with
      | none => rfl
      | some c => exact absurd (extract_host_of leverConfig (by decide) url c hx) hno
    simp only [processResult, hnone]
    by_cases h0 : url = "" <;> simp [h0]

theorem foreign_host_rejected_witness :
    extract leverConfig "https://www.example.com/jobs" = none ∧
    serp_processResult {"https://jobs.lever.co/acme"}
        (some "https://www.example.com/jobs") = {"https://jobs.lever.co/acme"} :=
  ⟨(foreign_host_rejected ("lever", leverConfig) (by decide)
      "https://www.example.com/jobs").1 (by decide),
   (foreign_host_rejected ("lever", leverConfig) (by decide)
      "https://www.example.com/jobs").2.2 {"https://jobs.lever.co/acme"} (by decide)⟩

/-- Claim C6: when a provider call for one query raises, the error is
caught, the query contributes zero results, and the loop continues: the
number of provider invocations is still `min mq 15`, and the session set
equals the one obtained when that invocation instead returns an empty
result list. -/
theorem provider_error_resilience {ε : Type} (cfg : PlatformConfig)
    (provider : Nat → Except ε (List (Option String))) (mq k : Nat) (e : ε) :
    (discover_platform cfg
        (fun i => if i = k then Except.error e else provider i) mq).invocations =
      min mq 15 ∧
    (discover_platform cfg
        (fun i => if i = k then Except.error e else provider i) mq).all_urls =
      (discover_platform cfg
        (fun i => if i = k then Except.ok [] else provider i) mq).all_urls := by
  obtain ⟨h1, -, h3, -, -⟩ := discover_platform_spec cfg
    (fun i => if i = k then Except.error e else provider i) mq
  obtain ⟨-, -, h3', -, -⟩ := discover_platform_spec cfg
    (fun i => if i = k then Except.ok [] else provider i) mq
  refine ⟨h1, ?_⟩
  rw [h3, h3']
  apply sessionFrom_congr
  intro i
  by_cases hik : i = k
  · simp [hik, extract_urls_from_results]
  · simp [hik]

/-- Claim C9: each completed (non-raising) query adds the fixed 2-credit
constant, the reported monetary cost is the accrued credits times the
fixed rate `16 / 10000`, raising queries contribute neither credits nor
cost (a run where every call raises accrues zero of both), and cost never
stops the loop: the invocation count is `min mq 15` for every provider. -/
theorem credit_cost_accounting {ε : Type} (cfg : PlatformConfig)
    (provider : Nat → Except ε (List (Option String))) (mq : Nat) (e : ε) :
    (discover_platform cfg provider mq).total_credits_used =
      2 * successCount provider 0 (min mq 15) ∧
    run_cost (discover_platform cfg provider mq).total_credits_used =
      ((discover_platform cfg provider mq).total_credits_used : ℚ) * (16 / 10000) ∧
    (discover_platform cfg (fun _ => Except.error e) mq).total_credits_used = 0 ∧
    run_cost (discover_platform cfg
      (fun _ => Except.error e) mq).total_credits_used = 0 ∧
    (discover_platform cfg provider mq).invocations = min mq 15 := by
  obtain ⟨h1, -, -, h4, -⟩ := discover_platform_spec cfg provider mq
  obtain ⟨-, -, -, h4', -⟩ := discover_platform_spec cfg
    (fun _ => (Except.error e : Except ε (List (Option String)))) mq
  have hzero : ∀ len start,
      successCount (fun _ => (Except.error e : Except ε (List (Option String))))
        start len = 0 := by
    intro len
    induction len with
    | zero => intro start; rfl
    | succ n ih =>
      intro start
      simp only [successCount, ih (start+1)]
  have hcred0 : (discover_platform cfg
      (fun _ => Except.error e) mq).total_credits_used = 0 := by
    rw [h4', hzero]
  refine ⟨h4, rfl, hcred0, ?_, h1⟩
  rw [hcred0]
  simp [run_cost]

/-- Claim C7: the existing-state loader is total and never aborts the run:
an absent store yields the empty set, and an unreadable or corrupt store
yields the empty set (the failure is only reported), in both scripts. -/
theorem loader_total_on_missing_or_corrupt (col : String) :
    read_existing_urls Store.absent col = ∅ ∧
    read_existing_urls Store.unreadable col = ∅ ∧
    serp_read_existing_urls Store.absent = ∅ ∧
    serp_read_existing_urls Store.unreadable = ∅ :=
  ⟨rfl, rfl, rfl, rfl⟩

/-- Claim C8, counterexample: the `serp.py` loader never consults the legacy
`"url"` column: on a store whose only column is `"url"` (nonempty), it
returns the empty set — the fallback read the claim asserts for the
existing-state loader would return the column's contents, as the
firecrawl loader does on the same store. -/
theorem serp_loader_no_fallback :
    serp_read_existing_urls
        (Store.table [("url", [some "https://jobs.lever.co/acme"])]) = ∅ ∧
    read_existing_urls
        (Store.table [("url", [some "https://jobs.lever.co/acme"])]) "lever_url" =
      {"https://jobs.lever.co/acme"} := by
  constructor
  · rfl
  · decide

/-- Claim C8, amended: the firecrawl loader attempts the generically named
fallback column `"url"` whenever the platform-specific column is absent;
the serp.py loader has no fallback and returns the empty set whenever its
platform column `"lever_url"` is absent. -/
theorem loader_legacy_fallback (cols : List (String × List (Option String)))
    (column_name : String) (cells : List (Option String)) :
    (cols.lookup column_name = none → cols.lookup "url" = some cells →
      read_existing_urls (Store.table cols) column_name = columnSet cells) ∧
    (cols.lookup "lever_url" = none →
      serp_read_existing_urls (Store.table cols) = ∅) := by
  constructor
  · intro h1 h2
    simp only [read_existing_urls, h1, h2]
  · intro h1
    simp only [serp_read_existing_urls, h1]

theorem loader_legacy_fallback_witness :
    read_existing_urls
        (Store.table [("url", [some "https://jobs.lever.co/beta"])]) "ashby_url" =
      columnSet [some "https://jobs.lever.co/beta"] ∧
    serp_read_existing_urls (Store.table [("greenhouse_url", [])]) = ∅ :=
  ⟨(loader_legacy_fallback [("url", [some "https://jobs.lever.co/beta"])]
      "ashby_url" [some "https://jobs.lever.co/beta"]).1 (by decide) (by decide),
   (loader_legacy_fallback [("greenhouse_url", [])] "lever_url" []).2 (by decide)⟩

/-- Claim C10: every canonical URL in the session set is a prefix of one of
the raw result URLs supplied by the provider (the capturing group is
anchored at position 0), and result entries lacking a URL or carrying an
empty URL are skipped silently, in both scripts. -/
theorem session_urls_from_provider (cfg : PlatformConfig)
    (results : List (Option String)) (c : String) :
    (c ∈ extract_urls_from_results cfg results →
      ∃ u : String, some u ∈ results ∧ c.toList <+: u.toList) ∧
    extract_urls_from_results cfg (none :: results) =
      extract_urls_from_results cfg results ∧
    extract_urls_from_results cfg (some "" :: results) =
      extract_urls_from_results cfg results ∧
    (∀ urls : Finset String, serp_processResult urls none = urls ∧
      serp_processResult urls (some "") = urls) := by
  refine ⟨?_, rfl, ?_, ?_⟩
  · intro h
    rcases mem_foldl_processResult cfg results ∅ c h with habs | ⟨u, hu, hex⟩
    · exact absurd habs (Finset.not_mem_empty c)
    · obtain ⟨-, pr, hpr, t, -, -, hpre⟩ := extract_some cfg u c hex
      exact ⟨u, hu, hpre⟩
  · show results.foldl (processResult cfg) (processResult cfg ∅ (some "")) =
      results.foldl (processResult cfg) ∅
    rw [show processResult cfg ∅ (some "") = ∅ from by simp [processResult]]
  · intro urls
    exact ⟨rfl, by simp [serp_processResult]⟩

theorem session_urls_from_provider_witness :
    ∃ u : String, some u ∈ [some "https://jobs.lever.co/acme/job/123"] ∧
      ("https://jobs.lever.co/acme").toList <+: u.toList :=
  (session_urls_from_provider leverConfig [some "https://jobs.lever.co/acme/job/123"]
    "https://jobs.lever.co/acme").1 (by decide)

end Discovery
